import Mathlib

/-!
# Verification of the patternsleuth resolver engine

Shallow embedding of `patternsleuth/src/resolvers/mod.rs` (the resolver
runtime, resolution primitives, combinators and dynamic-equality plumbing),
together with spec-modelled stubs for the collaborator interfaces (`Memory`,
`Image`, the multi-pattern scanner) that live outside the provided sources.
-/

namespace Patternsleuth

/-- Modelled from the spec: `MemoryAccessError{start, len}` — the error value
produced when a VA-range read runs outside image memory. -/
structure MemoryAccessError where
  start : Nat
  len : Nat
deriving DecidableEq, Repr

/-- `ResolveError` from `resolvers/mod.rs`: either a domain message
(`Msg(Cow<str>)`) or an out-of-bounds memory access. -/
inductive ResolveError where
  | Msg (msg : String)
  | MemoryAccessOutOfBounds (err : MemoryAccessError)
deriving DecidableEq, Repr

instance {ε α : Type} [DecidableEq ε] [DecidableEq α] :
    DecidableEq (Except ε α) := fun x y =>
  match x, y with
  | Except.ok a, Except.ok b => decidable_of_iff (a = b) (by simp)
  | Except.error e, Except.error f => decidable_of_iff (e = f) (by simp)
  | Except.ok _, Except.error _ => isFalse (by simp)
  | Except.error _, Except.ok _ => isFalse (by simp)

/-- The `impl From<MemoryAccessError> for ResolveError` in `resolvers/mod.rs`. -/
def ResolveError.fromMemoryAccessError (e : MemoryAccessError) : ResolveError :=
  ResolveError.MemoryAccessOutOfBounds e

/-- `ResolutionType`: the user-visible outcome surface of a resolution
(`Address(va)`, `String(s)`, `Count`, `Failed`). -/
inductive ResolutionType where
  | address (va : Nat)
  | stringRes (s : String)
  | count
  | failed
deriving DecidableEq, Repr

/-- Modelled from the spec: the conversion `Option<usize> -> ResolutionAction`
used by the resolution primitives (`Some` becomes `Address`, `None` becomes
`Failed`). The `ResolutionAction` type itself is outside the provided sources;
the claims only observe the resulting `ResolutionType`. -/
def optionToResolution : Option Nat → ResolutionType
  | some va => ResolutionType.address va
  | none => ResolutionType.failed

/-- A memory section `(base_va, bytes)`. Bytes are naturals `< 256` in the
real program; the embedding masks where it matters. -/
structure Section where
  address : Nat
  data : List Nat
deriving DecidableEq, Repr

/-- Modelled from the spec: `Memory` — "indexable by VA ranges yielding
`&[u8]`; out-of-bounds yields `MemoryAccessError{start, len}`". A read
succeeds when a single section contains the whole range. -/
structure Memory where
  sections : List Section
deriving DecidableEq, Repr

/-- Modelled from the spec: reading the VA range `[start, start+len)` out of
image memory. -/
def Memory.read (m : Memory) (start len : Nat) :
    Except MemoryAccessError (List Nat) :=
  match m.sections.find? (fun s =>
      decide (s.address ≤ start ∧ start + len ≤ s.address + s.data.length)) with
  | some s => Except.ok ((s.data.drop (start - s.address)).take len)
  | none => Except.error ⟨start, len⟩

/-- The exception-table record for one function: its VA `range`. Modelled
from the spec interface `Function{ range: va_start..va_end }`. -/
structure FnRecord where
  start : Nat
  stop : Nat
deriving DecidableEq, Repr

/-- Modelled from the spec: the `Image` interface — section memory plus the
exception-table-backed lookup `get_root_function(va) -> Option<Function>`. -/
structure Image where
  memory : Memory
  rootFunction : Nat → Option FnRecord

/-- `Image::get_root_function` (spec interface; outside the provided
sources). -/
def Image.get_root_function (img : Image) (va : Nat) : Option FnRecord :=
  img.rootFunction va

/-- `ResolveContext`: what a resolution primitive receives — the image, its
memory, and the pattern-match address. Field set taken from the uses in
`resolvers/mod.rs` (`ctx.exe`, `ctx.memory`, `ctx.match_address`). -/
structure ResolveContext where
  exe : Image
  memory : Memory
  match_address : Nat

/-- `ResolveStages` is a newtype over `Vec<usize>`; `stages.0.push(va)`
appends. We carry it as a bare `List Nat`. -/
abbrev ResolveStages := List Nat

/-- `resolve_self` from `resolvers/mod.rs`: return the match address. -/
def resolve_self (ctx : ResolveContext) (stages : ResolveStages) :
    ResolveStages × ResolutionType :=
  (stages, ResolutionType.address ctx.match_address)

/-- `resolve_function` from `resolvers/mod.rs`: push the match address onto
`stages`, look up the exception-table root function containing it, and map
its range start to `Address` (absence maps to `Failed`). -/
def resolve_function (ctx : ResolveContext) (stages : ResolveStages) :
    ResolveStages × ResolutionType :=
  (stages ++ [ctx.match_address],
   optionToResolution ((ctx.exe.get_root_function ctx.match_address).map
     (fun f => f.start)))

/-- Little-endian 32-bit value of (the first four of) a byte list, as
`i32::from_le_bytes` sees it. -/
def leU32 (bs : List Nat) : Nat :=
  (bs.getD 0 0 % 256) + 256 * (bs.getD 1 0 % 256) + 65536 * (bs.getD 2 0 % 256)
    + 16777216 * (bs.getD 3 0 % 256)

/-- Sign-extension of a 32-bit value to a signed integer (`as isize` after
`i32::from_le_bytes`). -/
def sext32 (n : Nat) : Int :=
  if n % 4294967296 < 2147483648 then ((n % 4294967296 : Nat) : Int)
  else ((n % 4294967296 : Nat) : Int) - 4294967296

/-- `usize::checked_add_signed` on a 64-bit target: `None` when the exact sum
leaves `[0, 2^64)`. -/
def checked_add_signed (a : Nat) (d : Int) : Option Nat :=
  if 0 ≤ (a : Int) + d ∧ (a : Int) + d < 18446744073709551616 then
    some ((a : Int) + d).toNat
  else none

/-- `resolve_rip` from `resolvers/mod.rs`: push the match address onto
`stages`, read the 4-byte little-endian displacement at the match address,
and produce `checked_add_signed(match_address, disp).map(|a| a + N)` as a
resolution. The `Memory` range read is spec-modelled (`Except`-valued), so
the out-of-bounds case surfaces as `MemoryAccessOutOfBounds` per the spec's
failure model; the in-bounds path follows the source. The final
`a + next_opcode_offset` is a plain `usize` add, kept as arithmetic modulo
`2^64` (release-profile wraparound; a debug build would abort there
instead). -/
def resolve_rip (memory : Memory) (match_address next_opcode_offset : Nat)
    (stages : ResolveStages) :
    ResolveStages × Except ResolveError ResolutionType :=
  let stages' := stages ++ [match_address]
  match memory.read match_address 4 with
  | Except.error e =>
      (stages', Except.error (ResolveError.fromMemoryAccessError e))
  | Except.ok bytes =>
      (stages',
       Except.ok (optionToResolution
         ((checked_add_signed match_address (sext32 (leU32 bytes))).map
           (fun a => (a + next_opcode_offset) % 18446744073709551616))))

/-- `resolve_rip_offset::<N>` from `resolvers/mod.rs`: `resolve_rip` with
`next_opcode_offset = N`. -/
def resolve_rip_offset (N : Nat) (ctx : ResolveContext)
    (stages : ResolveStages) :
    ResolveStages × Except ResolveError ResolutionType :=
  resolve_rip ctx.memory ctx.match_address N stages

/-- The loop body of `ensure_one`: bail with the multiple-values message on
the first element differing from `first`. -/
def ensureOneLoop {T : Type} [DecidableEq T] (first : T) :
    List T → Except ResolveError T
  | [] => Except.ok first
  | v :: rest =>
      if v = first then ensureOneLoop first rest
      else Except.error (ResolveError.Msg "iter returned multiple unique values")

/-- `ensure_one` from `resolvers/mod.rs`: the single common value of a
non-empty all-equal iterator, else a descriptive error. -/
def ensure_one {T : Type} [DecidableEq T] (data : List T) :
    Except ResolveError T :=
  match data with
  | [] => Except.error (ResolveError.Msg "expected at least one value")
  | first :: rest => ensureOneLoop first rest

/-- A compiled pattern: `(mask, value)` byte pairs (`mask = 0` is a wildcard
byte) plus the anchor offset subtracted from the hit position. Modelled from
the spec's Pattern data model (the scanner crate is outside the provided
sources). -/
structure Pattern where
  bytes : List (Nat × Nat)
  anchor : Nat
deriving DecidableEq, Repr

/-- Length in bytes of a pattern's window. -/
def Pattern.len (p : Pattern) : Nat := p.bytes.length

/-- Masked byte-wise comparison of a pattern window against a byte slice. -/
def matchBytes : List (Nat × Nat) → List Nat → Bool
  | [], _ => true
  | _ :: _, [] => false
  | (m, v) :: ps, b :: bs => (b &&& m == v &&& m) && matchBytes ps bs

/-- Modelled from the spec: the single-pattern reference scan of one section —
every window position is tested, overlapping matches are independent, the hit
VA is `base + i - anchor`, and a hit whose anchored VA would be negative is
discarded. -/
def scanSection (p : Pattern) (s : Section) : List Nat :=
  (List.range (s.data.length + 1 - p.len)).filterMap fun i =>
    if matchBytes p.bytes (s.data.drop i) ∧ p.anchor ≤ s.address + i then
      some (s.address + i - p.anchor)
    else none

/-- Modelled from the spec: the multi-pattern scanner
(`patternsleuth_scanner::scan_pattern`) — for each input pattern, its list of
matching VAs in the section. -/
def scan_pattern (setup : List Pattern) (s : Section) : List (List Nat) :=
  setup.map (fun p => scanSection p s)

/-- The reply value delivered to a parked scan request
(`PatternMatches { pattern, matches }` in `resolvers/mod.rs`); the `matches`
field is called `matchList` here because `matches` is reserved in Lean. -/
structure PatternMatches where
  pattern : Pattern
  matchList : List Nat
deriving DecidableEq, Repr

/-- The flush phase of `eval` in `resolvers/mod.rs`: per-pattern accumulators
start empty and, for each section in enumeration order, are extended with that
section's multi-pattern scan results. -/
def flushResults (patterns : List Pattern) (sections : List Section) :
    List (List Nat) :=
  sections.foldl
    (fun acc s => List.zipWith (· ++ ·) acc (scan_pattern patterns s))
    (patterns.map fun _ => [])

/-- The delivery step of `eval`'s flush: each parked request receives a
`PatternMatches` pairing its queue-order pattern with its accumulated
matches. -/
def flushDeliveries (patterns : List Pattern) (sections : List Section) :
    List PatternMatches :=
  List.zipWith (fun ms p => PatternMatches.mk p ms)
    (flushResults patterns sections) patterns

/-- `AsyncContext::scan_tagged` from `resolvers/mod.rs`, as state passing on
the parked-request queue: push the pattern, and return the continuation that
turns the delivered `PatternMatches` into `(tag, pattern, matches)`. -/
def scan_tagged {T : Type} (tag : T) (pattern : Pattern)
    (queue : List Pattern) :
    List Pattern × (PatternMatches → T × Pattern × List Nat) :=
  (queue ++ [pattern], fun pm => (tag, pm.pattern, pm.matchList))

/-- `AsyncContext::scan` from `resolvers/mod.rs`: `scan_tagged((), pattern)`
projected to its third component. -/
def scan (pattern : Pattern) (queue : List Pattern) :
    List Pattern × (PatternMatches → List Nat) :=
  let st := scan_tagged () pattern queue
  (st.1, fun pm => (st.2 pm).2.2)

/-- The ordering between adjacent memory sections under which per-section
scan results concatenate into an ascending list: each section ends at or
before the next begins. -/
def sectionChainRel (s₁ s₂ : Section) : Prop :=
  s₁.address + s₁.data.length ≤ s₂.address

instance : DecidableRel sectionChainRel := fun s₁ s₂ =>
  inferInstanceAs (Decidable (s₁.address + s₁.data.length ≤ s₂.address))

/-- `futures::try_join!` over the children of a try-collector, projected to
the single-threaded executor: the children's results in declaration order,
short-circuiting on the first error. The record built on success is carried
as the ordered list of its fields. -/
def try_join {ε α : Type} : List (Except ε α) → Except ε (List α)
  | [] => Except.ok []
  | c :: cs =>
      match c with
      | Except.error e => Except.error e
      | Except.ok v =>
          match try_join cs with
          | Except.error e => Except.error e
          | Except.ok vs => Except.ok (v :: vs)

/-- The first error among a list of child results, in declaration order. -/
def firstError {ε α : Type} : List (Except ε α) → Option ε
  | [] => none
  | Except.error e :: _ => some e
  | Except.ok _ :: cs => firstError cs

/-- The body generated by `_impl_try_collector`: `try_join!` over
`ctx.resolve(child)` calls, then the record is built from the joined values
(never from a partial tuple). -/
def tryCollector {ε α : Type} (children : List (Except ε α)) :
    Except ε (List α) :=
  try_join children

/-- The closed universe of concrete `Resolution` types used to model `Any`
downcasting: an address-carrying resolver type and a string-carrying one. -/
inductive RTy where
  | addrTy
  | strTy
deriving DecidableEq, Repr

/-- The Rust value type behind each concrete resolver type. -/
@[reducible] def RTy.interp : RTy → Type
  | RTy.addrTy => Nat
  | RTy.strTy => String

/-- The concrete type's own `PartialEq` (`this == other` in `dyn_eq`). -/
def valBeq : (t : RTy) → t.interp → t.interp → Bool
  | RTy.addrTy, a, b => a == b
  | RTy.strTy, a, b => a == b

/-- A `dyn Resolution` trait object: a concrete type tag plus a value of that
type (the shallow embedding of `Box<dyn Any>` contents). -/
structure DynRes where
  ty : RTy
  val : ty.interp

/-- `Any::downcast_ref::<T>`: succeeds exactly when the erased value's
concrete type is `t`. -/
def downcastRef (d : DynRes) (t : RTy) : Option t.interp :=
  if h : d.ty = t then some (h ▸ d.val) else none

/-- `DynEq::dyn_eq::<T>` from `resolvers/mod.rs`: downcast the receiver to
`T` and compare with `T`'s `PartialEq`, else `false`. -/
def dyn_eq (self : DynRes) (t : RTy) (other : t.interp) : Bool :=
  match downcastRef self t with
  | some this => valBeq t this other
  | none => false

/-- `DynEqHelper::level_two` from `resolvers/mod.rs`: downcast `arg1` to the
receiver's concrete type `Self`, then `other.dyn_eq(self)`. -/
def level_two (self : DynRes) (arg1 : DynRes) : Bool :=
  match downcastRef arg1 self.ty with
  | some other => dyn_eq (DynRes.mk self.ty other) self.ty self.val
  | none => false

/-- `DynEq::level_one` from `resolvers/mod.rs`: double dispatch —
`arg2.level_two(self)`. -/
def level_one (self : DynRes) (arg2 : DynRes) : Bool :=
  level_two arg2 self

/-- `impl PartialEq for dyn Resolution`: `self.level_one(other)`. -/
def dynResolutionEq (a b : DynRes) : Bool :=
  level_one a b

/-- The per-`TypeId` cell of `AsyncContext`'s caches, combining the
`resolvers` map entry and the `pending_resolvers` waiter list of
`resolvers/mod.rs`. `α` is the cached `AnyValue`
(`Result<Arc<dyn Any + Send + Sync>>`), so a cached error is a value of `α`
like any other. -/
inductive CellState (α : Type) where
  | absent
  | inFlight (waiters : List Nat)
  | cached (value : α)
deriving DecidableEq, Repr

/-- Observable events of `AsyncContext::resolve` on one cell. `hit v` is the
early return of a cached value; `wait w` registers waiter `w` on an in-flight
computation; `factRun` is the branch that claims the computation and invokes
the resolver factory; `finish v ws` is the claimer storing `v` in the cache
and sending `v` to every registered waiter `ws`. -/
inductive RLabel (α : Type) where
  | hit (v : α)
  | wait (w : Nat)
  | factRun
  | finish (v : α) (ws : List Nat)
deriving DecidableEq, Repr

/-- The transitions `AsyncContext::resolve` (and the claimer's completion
code) can perform on one cell, read off the lock-held sections of
`resolvers/mod.rs`: a cached value is returned unchanged; an in-flight cell
appends a waiter; an absent cell is claimed with an empty waiter list and the
factory runs; a claimed cell is finished by caching the result and waking the
registered waiters with that same value. -/
inductive RStep {α : Type} : CellState α → RLabel α → CellState α → Prop
  | hit (v : α) :
      RStep (CellState.cached v) (RLabel.hit v) (CellState.cached v)
  | wait (ws : List Nat) (w : Nat) :
      RStep (CellState.inFlight ws) (RLabel.wait w)
        (CellState.inFlight (ws ++ [w]))
  | factRun :
      RStep CellState.absent RLabel.factRun (CellState.inFlight [])
  | finish (ws : List Nat) (v : α) :
      RStep (CellState.inFlight ws) (RLabel.finish v ws) (CellState.cached v)

/-- A finite trace of cell transitions. -/
inductive RTrace {α : Type} : CellState α → List (RLabel α) → CellState α → Prop
  | nil (s : CellState α) : RTrace s [] s
  | cons (s s' s'' : CellState α) (l : RLabel α) (ls : List (RLabel α)) :
      RStep s l s' → RTrace s' ls s'' → RTrace s (l :: ls) s''

/-- Number of factory invocations in a trace. -/
def countFactRuns {α : Type} (tr : List (RLabel α)) : Nat :=
  tr.countP fun l =>
    match l with
    | RLabel.factRun => true
    | _ => false

/-- Number of cache writes in a trace. -/
def countFinishes {α : Type} (tr : List (RLabel α)) : Nat :=
  tr.countP fun l =>
    match l with
    | RLabel.finish _ _ => true
    | _ => false

/-- The driver loop of `eval` in `resolvers/mod.rs`, fuelled. Each iteration
runs the task pool until it stalls, returns the root result when the root
future has resolved, and otherwise takes the parked queue, scans it, and
delivers the replies. The surrounding executor is kept abstract as a state
type `S` with the four operations the loop uses. -/
def evalLoop {S T : Type} (runUntilStalled : S → S) (tryRecvRoot : S → Option T)
    (takeQueue : S → List Pattern × S)
    (deliver : S → List PatternMatches → S) (sections : List Section) :
    Nat → S → Option T
  | 0, _ => none
  | fuel + 1, s =>
      let s₁ := runUntilStalled s
      match tryRecvRoot s₁ with
      | some r => some r
      | none =>
          let q := takeQueue s₁
          evalLoop runUntilStalled tryRecvRoot takeQueue deliver sections fuel
            (deliver q.2 (flushDeliveries q.1 sections))

/-! ### Helper lemmas -/

theorem ensureOneLoop_ok {T : Type} [DecidableEq T] (first x : T)
    (rest : List T) :
    ensureOneLoop first rest = Except.ok x ↔ x = first ∧ ∀ y ∈ rest, y = first := by
  induction rest with
  | nil => simp [ensureOneLoop, eq_comm]
  | cons v vs ih =>
      simp only [ensureOneLoop]
      by_cases h : v = first
      · rw [if_pos h, ih]
        subst h
        constructor
        · rintro ⟨hx, hall⟩
          refine ⟨hx, fun y hy => ?_⟩
          rcases List.mem_cons.mp hy with rfl | hy'
          · rfl
          · exact hall y hy'
        · rintro ⟨hx, hall⟩
          exact ⟨hx, fun y hy => hall y (List.mem_cons_of_mem _ hy)⟩
      · rw [if_neg h]
        constructor
        · intro hcontra
          exact Except.noConfusion hcontra
        · rintro ⟨hx, hall⟩
          exact absurd (hall v (List.mem_cons_self v vs)) h

theorem ensureOneLoop_err {T : Type} [DecidableEq T] (first : T)
    (rest : List T) (y : T) (hy : y ∈ rest) (hne : y ≠ first) :
    ensureOneLoop first rest =
      Except.error (ResolveError.Msg "iter returned multiple unique values") := by
  induction rest with
  | nil => cases hy
  | cons v vs ih =>
      by_cases h : v = first
      · rcases List.mem_cons.mp hy with h' | h'
        · exact absurd (h' ▸ h) hne
        · simp [ensureOneLoop, h, ih h']
      · simp [ensureOneLoop, h]

theorem try_join_map_ok {ε α : Type} (vs : List α) :
    try_join (vs.map (Except.ok : α → Except ε α)) = Except.ok vs := by
  induction vs with
  | nil => rfl
  | cons v vs ih => simp [try_join, ih]

theorem try_join_eq_ok {ε α : Type} (cs : List (Except ε α)) (vs : List α)
    (h : try_join cs = Except.ok vs) : cs = vs.map Except.ok := by
  induction cs generalizing vs with
  | nil =>
      simp only [try_join] at h
      cases h
      rfl
  | cons c cs ih =>
      cases c with
      | error e => simp [try_join] at h
      | ok v =>
          cases hj : try_join cs with
          | error e => simp [try_join, hj] at h
          | ok vs' =>
              simp only [try_join, hj] at h
              cases h
              simp [ih vs' hj]

theorem try_join_first_error {ε α : Type} (cs : List (Except ε α)) (e : ε)
    (h : firstError cs = some e) : try_join cs = Except.error e := by
  induction cs with
  | nil => simp [firstError] at h
  | cons c cs ih =>
      cases c with
      | error f =>
          simp only [firstError] at h
          cases h
          rfl
      | ok v =>
          simp only [firstError] at h
          simp [try_join, ih h]

theorem flushResults_nil (sections : List Section) :
    flushResults [] sections = [] := by
  show List.foldl _ _ _ = _
  induction sections with
  | nil => rfl
  | cons s ss ih => simpa [List.zipWith_nil_left] using ih

theorem flushDeliveries_nil (sections : List Section) :
    flushDeliveries [] sections = [] := by
  simp [flushDeliveries, flushResults_nil]

theorem foldl_scan_single (p : Pattern) (ss : List Section) (a : List Nat) :
    ss.foldl (fun x s => x ++ scanSection p s) a
      = a ++ (ss.map (fun s => scanSection p s)).flatten := by
  induction ss generalizing a with
  | nil => simp
  | cons s ss ih => simp [ih, List.append_assoc]

theorem flushFold_cons (p : Pattern) (ps : List Pattern) (ss : List Section)
    (a : List Nat) (accs : List (List Nat)) :
    ss.foldl (fun acc s => List.zipWith (· ++ ·) acc (scan_pattern (p :: ps) s))
        (a :: accs)
      = (ss.foldl (fun x s => x ++ scanSection p s) a)
        :: ss.foldl (fun acc s => List.zipWith (· ++ ·) acc (scan_pattern ps s))
            accs := by
  induction ss generalizing a accs with
  | nil => rfl
  | cons s ss ih =>
      simp only [List.foldl_cons, scan_pattern, List.map_cons,
        List.zipWith_cons_cons]
      exact ih (a ++ scanSection p s) _

theorem flushResults_eq (ps : List Pattern) (ss : List Section) :
    flushResults ps ss
      = ps.map fun p => (ss.map (fun s => scanSection p s)).flatten := by
  induction ps with
  | nil => exact flushResults_nil ss
  | cons p ps ih =>
      show List.foldl _ _ _ = _
      rw [List.map_cons, flushFold_cons, foldl_scan_single]
      exact congrArg₂ _ (by simp) ih

theorem zipWith_mk_map (g : Pattern → List Nat) (ps : List Pattern) :
    List.zipWith (fun ms p => PatternMatches.mk p ms) (ps.map g) ps
      = ps.map fun p => PatternMatches.mk p (g p) := by
  induction ps with
  | nil => rfl
  | cons p ps ih => simp [ih]

theorem flushDeliveries_eq (ps : List Pattern) (ss : List Section) :
    flushDeliveries ps ss
      = ps.map fun p =>
          PatternMatches.mk p ((ss.map (fun s => scanSection p s)).flatten) := by
  unfold flushDeliveries
  rw [flushResults_eq, zipWith_mk_map]

theorem rstep_ne_absent {α : Type} {s s' : CellState α} {l : RLabel α}
    (h : RStep s l s') : s' ≠ CellState.absent := by
  cases h <;> rintro ⟨⟩

theorem rtrace_no_factRun {α : Type} :
    ∀ {s : CellState α} {tr : List (RLabel α)} {sf : CellState α},
      RTrace s tr sf → s ≠ CellState.absent → countFactRuns tr = 0 := by
  intro s tr sf h
  induction h with
  | nil => intro _; rfl
  | cons s s' s'' l ls hstep htr ih =>
      intro hs
      have h0 := ih (rstep_ne_absent hstep)
      cases hstep with
      | factRun => exact absurd rfl hs
      | hit v => simpa [countFactRuns, List.countP_cons] using h0
      | wait ws w => simpa [countFactRuns, List.countP_cons] using h0
      | finish ws v => simpa [countFactRuns, List.countP_cons] using h0

theorem rtrace_cached_aux {α : Type} {v : α} :
    ∀ {s0 : CellState α} {tr : List (RLabel α)} {sf : CellState α},
      RTrace s0 tr sf → s0 = CellState.cached v →
      sf = CellState.cached v ∧ ∀ l ∈ tr, l = RLabel.hit v := by
  intro s0 tr sf h
  induction h with
  | nil => intro hs; exact ⟨hs, by simp⟩
  | cons s s' s'' l ls hstep htr ih =>
      intro hs
      subst hs
      cases hstep
      rcases ih rfl with ⟨h1, h2⟩
      refine ⟨h1, fun l hl => ?_⟩
      rcases List.mem_cons.mp hl with rfl | hl'
      · rfl
      · exact h2 l hl'

theorem countFactRuns_le_one {α : Type} {tr : List (RLabel α)}
    {sf : CellState α} (h : RTrace CellState.absent tr sf) :
    countFactRuns tr ≤ 1 := by
  cases h with
  | nil => simp [countFactRuns]
  | cons s s' s'' l ls hstep htr =>
      cases hstep
      have h0 : countFactRuns ls = 0 := rtrace_no_factRun htr (by rintro ⟨⟩)
      simp only [countFactRuns] at h0 ⊢
      simp [List.countP_cons, h0]

theorem countFinishes_le_one {α : Type} :
    ∀ {s : CellState α} {tr : List (RLabel α)} {sf : CellState α},
      RTrace s tr sf → countFinishes tr ≤ 1 := by
  intro s tr sf h
  induction h with
  | nil => simp [countFinishes]
  | cons s s' s'' l ls hstep htr ih =>
      cases hstep with
      | finish ws v =>
          have h2 := (rtrace_cached_aux htr rfl).2
          have h0 : countFinishes ls = 0 :=
            List.countP_eq_zero.mpr (fun l hl => by rw [h2 l hl]; simp)
          simp only [countFinishes] at h0 ⊢
          simp [List.countP_cons, h0]
      | hit v => simpa [countFinishes, List.countP_cons] using ih
      | wait ws w => simpa [countFinishes, List.countP_cons] using ih
      | factRun => simpa [countFinishes, List.countP_cons] using ih

theorem rtrace_append {α : Type} :
    ∀ {s : CellState α} {tr₁ tr₂ : List (RLabel α)} {sf : CellState α},
      RTrace s (tr₁ ++ tr₂) sf →
      ∃ mid, RTrace s tr₁ mid ∧ RTrace mid tr₂ sf := by
  intro s tr₁
  induction tr₁ generalizing s with
  | nil => intro tr₂ sf h; exact ⟨s, RTrace.nil s, h⟩
  | cons l ls ih =>
      intro tr₂ sf h
      cases h with
      | cons _ s' _ _ _ hstep htr =>
          rcases ih htr with ⟨mid, h1, h2⟩
          exact ⟨mid, RTrace.cons _ _ _ _ _ hstep h1, h2⟩

theorem scanSection_sorted (p : Pattern) (s : Section) :
    List.Sorted (· < ·) (scanSection p s) := by
  unfold scanSection
  refine List.Pairwise.filterMap _ (fun i j hij => ?_)
    (List.pairwise_lt_range _)
  intro x hx y hy
  by_cases h₁ : matchBytes p.bytes (s.data.drop i) ∧ p.anchor ≤ s.address + i
  · by_cases h₂ : matchBytes p.bytes (s.data.drop j) ∧ p.anchor ≤ s.address + j
    · rw [if_pos h₁] at hx
      rw [if_pos h₂] at hy
      cases hx
      cases hy
      exact Nat.sub_lt_sub_right h₁.2 (by omega)
    · rw [if_neg h₂] at hy
      cases hy
  · rw [if_neg h₁] at hx
    cases hx

theorem scanSection_mem_bounds (p : Pattern) (s : Section) (hp : 1 ≤ p.len)
    (x : Nat) (hx : x ∈ scanSection p s) :
    s.address ≤ x + p.anchor ∧ x + p.anchor < s.address + s.data.length := by
  unfold scanSection at hx
  rcases List.mem_filterMap.mp hx with ⟨i, hi, hfi⟩
  by_cases h₁ : matchBytes p.bytes (s.data.drop i) ∧ p.anchor ≤ s.address + i
  · rw [if_pos h₁] at hfi
    cases hfi
    have hmem := List.mem_range.mp hi
    rw [Nat.sub_add_cancel h₁.2]
    have hlen : p.len = p.bytes.length := rfl
    omega
  · rw [if_neg h₁] at hfi
    cases hfi

theorem chained_le {ss : List Section} (s : Section)
    (hchain : List.Chain' sectionChainRel (s :: ss)) (s' : Section)
    (hs' : s' ∈ ss) : s.address + s.data.length ≤ s'.address := by
  induction ss generalizing s with
  | nil => cases hs'
  | cons s₂ ss ih =>
      have h₁₂ : sectionChainRel s s₂ := (List.chain'_cons.mp hchain).1
      rcases List.mem_cons.mp hs' with rfl | hs''
      · exact h₁₂
      · have h₂ := ih s₂ (List.chain'_cons.mp hchain).2 hs''
        unfold sectionChainRel at *
        omega

theorem sorted_flatten_sections (p : Pattern) (hp : 1 ≤ p.len) :
    ∀ (ss : List Section), List.Chain' sectionChainRel ss →
      List.Sorted (· < ·) ((ss.map (fun s => scanSection p s)).flatten) := by
  intro ss
  induction ss with
  | nil => intro _; simp
  | cons s ss ih =>
      intro hchain
      rw [List.map_cons, List.flatten_cons]
      refine List.pairwise_append.mpr
        ⟨scanSection_sorted p s, ih (List.chain'_cons'.mp hchain).2, ?_⟩
      intro x hx y hy
      rcases List.mem_flatten.mp hy with ⟨l, hl, hyl⟩
      rcases List.mem_map.mp hl with ⟨s', hs', rfl⟩
      have hb₁ := scanSection_mem_bounds p s hp x hx
      have hb₂ := scanSection_mem_bounds p s' hp y hyl
      have hle := chained_le s hchain s' hs'
      omega

/-! ### Claim theorems -/

/-- C4: `ensure_one(xs)` returns `Ok(x)` iff `xs` is non-empty and all of its
elements are equal, `x` being that common value; the empty iterator yields the
error `"expected at least one value"`, and an iterator containing two unequal
elements yields `"iter returned multiple unique values"`. -/
theorem ensure_one_spec {T : Type} [DecidableEq T] :
    (∀ (xs : List T) (x : T),
        ensure_one xs = Except.ok x ↔ x ∈ xs ∧ ∀ y ∈ xs, y = x)
    ∧ ensure_one ([] : List T) =
        Except.error (ResolveError.Msg "expected at least one value")
    ∧ (∀ (xs : List T) (a b : T), a ∈ xs → b ∈ xs → a ≠ b →
        ensure_one xs =
          Except.error (ResolveError.Msg "iter returned multiple unique values")) := by
  refine ⟨?_, rfl, ?_⟩
  · intro xs x
    match xs with
    | [] =>
        simp [ensure_one]
    | first :: rest =>
        rw [show ensure_one (first :: rest) = ensureOneLoop first rest from rfl,
          ensureOneLoop_ok]
        constructor
        · rintro ⟨rfl, hall⟩
          refine ⟨List.mem_cons_self _ _, fun y hy => ?_⟩
          rcases List.mem_cons.mp hy with rfl | hy'
          · rfl
          · exact hall y hy'
        · rintro ⟨hx, hall⟩
          have hfirst : first = x := hall first (List.mem_cons_self _ _)
          exact ⟨hfirst.symm, fun y hy =>
            (hall y (List.mem_cons_of_mem _ hy)).trans hfirst.symm⟩
  · intro xs a b ha hb hab
    match xs with
    | [] => cases ha
    | first :: rest =>
        show ensureOneLoop first rest = _
        by_cases haf : a = first
        · have hbf : b ≠ first := fun hb' => hab (haf.trans hb'.symm)
          rcases List.mem_cons.mp hb with rfl | hb'
          · exact absurd rfl hbf
          · exact ensureOneLoop_err first rest b hb' hbf
        · rcases List.mem_cons.mp ha with rfl | ha'
          · exact absurd rfl haf
          · exact ensureOneLoop_err first rest a ha' haf

/-- C4 witness: the spec's concrete scenarios
`ensure_one([7,7,7]) = Ok(7)`, `ensure_one([]) = Err("expected at least one
value")`, `ensure_one([7,8]) = Err("iter returned multiple unique values")`. -/
theorem ensure_one_spec_witness :
    ensure_one [7, 7, 7] = Except.ok 7
    ∧ ensure_one ([] : List Nat) =
        Except.error (ResolveError.Msg "expected at least one value")
    ∧ ensure_one [7, 8] =
        Except.error (ResolveError.Msg "iter returned multiple unique values") :=
  ⟨(ensure_one_spec.1 [7, 7, 7] 7).mpr (by decide), ensure_one_spec.2.1,
    ensure_one_spec.2.2 [7, 8] 7 8 (by decide) (by decide) (by decide)⟩

/-- C9: two `dyn Resolution` values compare equal via the double-dispatch
`PartialEq` exactly when they have the same concrete type and that type's own
equality accepts the two downcast values; values of different concrete types
always compare unequal. -/
theorem dyn_resolution_eq_spec :
    (∀ a b : DynRes, a.ty ≠ b.ty → dynResolutionEq a b = false)
    ∧ (∀ (t : RTy) (x y : t.interp),
        dynResolutionEq (DynRes.mk t x) (DynRes.mk t y) = valBeq t x y) := by
  constructor
  · rintro ⟨ta, va⟩ ⟨tb, vb⟩ hne
    simp only [dynResolutionEq, level_one, level_two, downcastRef] at *
    rw [dif_neg hne]
  · intro t x y
    simp [dynResolutionEq, level_one, level_two, downcastRef, dyn_eq]

/-- C9 witness: an address-typed and a string-typed resolution compare
unequal, and two address-typed resolutions compare by `Nat` equality. -/
theorem dyn_resolution_eq_spec_witness :
    dynResolutionEq (DynRes.mk RTy.addrTy 3) (DynRes.mk RTy.strTy "x") = false
    ∧ dynResolutionEq (DynRes.mk RTy.addrTy 3) (DynRes.mk RTy.addrTy 3) =
        valBeq RTy.addrTy 3 3 :=
  ⟨dyn_resolution_eq_spec.1 (DynRes.mk RTy.addrTy 3) (DynRes.mk RTy.strTy "x")
      (by decide),
    dyn_resolution_eq_spec.2 RTy.addrTy 3 3⟩

/-- C6: when the 4-byte read during RIP decoding is out of bounds, the
failure is returned as an error value: the `MemoryAccessError` is wrapped as
`MemoryAccessOutOfBounds` exactly as the `From` conversion into
`ResolveError` does, and the stage push still happens. -/
theorem resolve_rip_oob_spec (memory : Memory)
    (match_address next_opcode_offset : Nat) (stages : ResolveStages)
    (e : MemoryAccessError)
    (hread : memory.read match_address 4 = Except.error e) :
    (resolve_rip memory match_address next_opcode_offset stages).2 =
        Except.error (ResolveError.MemoryAccessOutOfBounds e)
    ∧ ResolveError.fromMemoryAccessError e =
        ResolveError.MemoryAccessOutOfBounds e
    ∧ (resolve_rip memory match_address next_opcode_offset stages).1 =
        stages ++ [match_address] := by
  refine ⟨?_, rfl, ?_⟩ <;>
    simp [resolve_rip, hread, ResolveError.fromMemoryAccessError]

/-- C6 witness: reading 4 bytes at VA 0 of an empty memory fails and
`resolve_rip` surfaces `MemoryAccessOutOfBounds` for the range `(0, 4)`. -/
theorem resolve_rip_oob_spec_witness :
    Memory.read (Memory.mk []) 0 4 = Except.error (MemoryAccessError.mk 0 4)
    ∧ (resolve_rip (Memory.mk []) 0 4 []).2 =
        Except.error
          (ResolveError.MemoryAccessOutOfBounds (MemoryAccessError.mk 0 4)) :=
  ⟨rfl, (resolve_rip_oob_spec (Memory.mk []) 0 4 [] (MemoryAccessError.mk 0 4)
      rfl).1⟩

/-- C7: `resolve_function` pushes the match address onto `stages` and maps
the exception-table root-function lookup to `Address(f.range.start)` when it
yields a function, and to `Failed` when it yields none. -/
theorem resolve_function_spec (ctx : ResolveContext) (stages : ResolveStages) :
    (resolve_function ctx stages).1 = stages ++ [ctx.match_address]
    ∧ (∀ f : FnRecord,
        ctx.exe.get_root_function ctx.match_address = some f →
        (resolve_function ctx stages).2 = ResolutionType.address f.start)
    ∧ (ctx.exe.get_root_function ctx.match_address = none →
        (resolve_function ctx stages).2 = ResolutionType.failed) := by
  refine ⟨rfl, ?_, ?_⟩
  · intro f hf
    simp [resolve_function, hf, optionToResolution]
  · intro hf
    simp [resolve_function, hf, optionToResolution]

/-- C7 witness: with an exception table mapping every VA below 100 to the
function starting at 16, a match at 42 resolves to `Address(16)` with stage
list `[42]`, and a match at 200 resolves to `Failed`. -/
theorem resolve_function_spec_witness :
    (resolve_function
        (ResolveContext.mk
          (Image.mk (Memory.mk [])
            (fun va => if va < 100 then some (FnRecord.mk 16 80) else none))
          (Memory.mk []) 42) []).2 = ResolutionType.address 16
    ∧ (resolve_function
        (ResolveContext.mk
          (Image.mk (Memory.mk [])
            (fun va => if va < 100 then some (FnRecord.mk 16 80) else none))
          (Memory.mk []) 42) []).1 = [42]
    ∧ (resolve_function
        (ResolveContext.mk
          (Image.mk (Memory.mk [])
            (fun va => if va < 100 then some (FnRecord.mk 16 80) else none))
          (Memory.mk []) 200) []).2 = ResolutionType.failed :=
  ⟨(resolve_function_spec _ []).2.1 (FnRecord.mk 16 80) rfl,
    (resolve_function_spec _ []).1,
    (resolve_function_spec _ []).2.2 rfl⟩

/-- C2 counterexample: at VA 0 with in-bounds displacement bytes
`ff ff ff ff` (signed value −1) and `N = 4`, the claimed result
`va + sext32 + N = 3` is not produced: `checked_add_signed` underflows below
`usize` 0 and the primitive yields `Failed` instead of `Address(3)`. -/
theorem resolve_rip_offset_counterexample :
    Memory.read (Memory.mk [Section.mk 0 [255, 255, 255, 255]]) 0 4 =
        Except.ok [255, 255, 255, 255]
    ∧ (resolve_rip_offset 4
        (ResolveContext.mk (Image.mk (Memory.mk []) (fun _ => none))
          (Memory.mk [Section.mk 0 [255, 255, 255, 255]]) 0) []).2 =
        Except.ok ResolutionType.failed
    ∧ (0 : Int) + sext32 (leU32 [255, 255, 255, 255]) + 4 = 3
    ∧ ResolutionType.failed ≠ ResolutionType.address 3 := by
  refine ⟨rfl, ?_, by decide, by decide⟩
  decide

/-- C2 amended: `resolve_rip_offset::<N>` always pushes the match address
onto `stages`; when the 4-byte read is in bounds and `va + sext32` stays
within `usize` range it yields
`Address((va + sext32(mem[va..va+4]) + N) mod 2^64)` — in particular exactly
`Address(va + sext32 + N)` whenever that full sum also fits in `usize` —
yields `Failed` when `va + sext32` leaves `usize` range, and yields an error
when the read is out of bounds. -/
theorem resolve_rip_offset_amended (N : Nat) (ctx : ResolveContext)
    (stages : ResolveStages) :
    (resolve_rip_offset N ctx stages).1 = stages ++ [ctx.match_address]
    ∧ (∀ bs, ctx.memory.read ctx.match_address 4 = Except.ok bs →
        (0 ≤ (ctx.match_address : Int) + sext32 (leU32 bs) ∧
            (ctx.match_address : Int) + sext32 (leU32 bs) <
              18446744073709551616 →
          (resolve_rip_offset N ctx stages).2 =
            Except.ok (ResolutionType.address
              ((((ctx.match_address : Int) + sext32 (leU32 bs)).toNat + N) %
                18446744073709551616)))
        ∧ (0 ≤ (ctx.match_address : Int) + sext32 (leU32 bs) ∧
            (ctx.match_address : Int) + sext32 (leU32 bs) <
              18446744073709551616 →
            ((ctx.match_address : Int) + sext32 (leU32 bs)).toNat + N <
              18446744073709551616 →
          (resolve_rip_offset N ctx stages).2 =
            Except.ok (ResolutionType.address
              (((ctx.match_address : Int) + sext32 (leU32 bs)).toNat + N)))
        ∧ (¬(0 ≤ (ctx.match_address : Int) + sext32 (leU32 bs) ∧
            (ctx.match_address : Int) + sext32 (leU32 bs) <
              18446744073709551616) →
          (resolve_rip_offset N ctx stages).2 =
            Except.ok ResolutionType.failed))
    ∧ (∀ e, ctx.memory.read ctx.match_address 4 = Except.error e →
        (resolve_rip_offset N ctx stages).2 =
          Except.error (ResolveError.MemoryAccessOutOfBounds e)) := by
  refine ⟨?_, ?_, ?_⟩
  · rcases hm : ctx.memory.read ctx.match_address 4 with e | bs <;>
      simp [resolve_rip_offset, resolve_rip, hm]
  · intro bs hbs
    refine ⟨?_, ?_, ?_⟩
    · intro hrange
      simp [resolve_rip_offset, resolve_rip, hbs, checked_add_signed,
        hrange, optionToResolution]
    · intro hrange hfit
      have h1 : (resolve_rip_offset N ctx stages).2 =
          Except.ok (ResolutionType.address
            ((((ctx.match_address : Int) + sext32 (leU32 bs)).toNat + N) %
              18446744073709551616)) := by
        simp [resolve_rip_offset, resolve_rip, hbs, checked_add_signed,
          hrange, optionToResolution]
      rw [h1, Nat.mod_eq_of_lt hfit]
    · intro hrange
      simp [resolve_rip_offset, resolve_rip, hbs, checked_add_signed,
        hrange, optionToResolution]
  · intro e he
    simp [resolve_rip_offset, resolve_rip, he,
      ResolveError.fromMemoryAccessError]

/-- C2 witness: the spec's concrete scenario — `resolve_rip_offset::<4>` at
VA `0x2000` over bytes `10 00 00 00` yields `Address(0x2014)`. -/
theorem resolve_rip_offset_amended_witness :
    (resolve_rip_offset 4
        (ResolveContext.mk (Image.mk (Memory.mk []) (fun _ => none))
          (Memory.mk [Section.mk 8192 [16, 0, 0, 0]]) 8192) []).2 =
      Except.ok (ResolutionType.address 8212) :=
  ((((resolve_rip_offset_amended 4
      (ResolveContext.mk (Image.mk (Memory.mk []) (fun _ => none))
        (Memory.mk [Section.mk 8192 [16, 0, 0, 0]]) 8192) []).2.1
    [16, 0, 0, 0] rfl).2.1 (by constructor <;> decide)) (by decide)).trans
    (by decide)

/-- C8: a try-collector over child results succeeds exactly when every child
succeeded, and then its record fields are precisely the children's results in
declaration order; when some child failed, it fails with the first error in
order, so no record (not even a partial one) is produced. -/
theorem try_collector_spec {ε α : Type} :
    (∀ (cs : List (Except ε α)) (vs : List α),
        tryCollector cs = Except.ok vs ↔ cs = vs.map Except.ok)
    ∧ (∀ (cs : List (Except ε α)) (e : ε),
        firstError cs = some e → tryCollector cs = Except.error e) := by
  refine ⟨fun cs vs => ⟨fun h => try_join_eq_ok cs vs h, fun h => ?_⟩,
    fun cs e h => try_join_first_error cs e h⟩
  subst h
  exact try_join_map_ok vs

/-- C8 witness: two successful children produce the record of both results;
a failing child among successes fails the collector with that first error. -/
theorem try_collector_spec_witness :
    tryCollector ([Except.ok 1, Except.ok 2] : List (Except ResolveError Nat))
        = Except.ok [1, 2]
    ∧ tryCollector
        ([Except.ok 1, Except.error (ResolveError.Msg "first"),
          Except.error (ResolveError.Msg "second")] :
            List (Except ResolveError Nat))
        = Except.error (ResolveError.Msg "first") :=
  ⟨(try_collector_spec.1 [Except.ok 1, Except.ok 2] [1, 2]).mpr rfl,
    try_collector_spec.2 _ (ResolveError.Msg "first") rfl⟩

/-- C5 (code bug): when the executor stalls with an empty queue and an
unresolved root, the `eval` driver loop never terminates — each iteration
re-runs the stalled pool, flushes an empty queue (delivering nothing), and
repeats — so no fuel bound ever makes it yield, contradicting the claim that
`eval` surfaces the deadlock as a fatal error. -/
theorem eval_deadlock_spins {S T : Type} (runUntilStalled : S → S)
    (tryRecvRoot : S → Option T) (takeQueue : S → List Pattern × S)
    (deliver : S → List PatternMatches → S) (sections : List Section) (s : S)
    (hstall : runUntilStalled s = s) (hroot : tryRecvRoot s = none)
    (hqueue : takeQueue s = ([], s)) (hdeliver : deliver s [] = s)
    (fuel : Nat) :
    evalLoop runUntilStalled tryRecvRoot takeQueue deliver sections fuel s =
      none := by
  induction fuel with
  | zero => rfl
  | succ n ih =>
      show (match tryRecvRoot (runUntilStalled s) with
        | some r => some r
        | none =>
            evalLoop runUntilStalled tryRecvRoot takeQueue deliver sections n
              (deliver (takeQueue (runUntilStalled s)).2
                (flushDeliveries (takeQueue (runUntilStalled s)).1 sections)))
        = none
      rw [hstall, hroot, hqueue]
      show evalLoop _ _ _ _ _ n (deliver s (flushDeliveries [] sections)) = none
      rw [flushDeliveries_nil, hdeliver]
      exact ih

/-- C5 witness: a concrete deadlocked executor state (trivial state space,
root never resolved, queue always empty) spins for any amount of fuel. -/
theorem eval_deadlock_spins_witness :
    @evalLoop Unit Nat id (fun _ => none) (fun s => ([], s)) (fun s _ => s)
      [] 5 () = none :=
  eval_deadlock_spins id (fun _ => none) (fun s => ([], s)) (fun s _ => s)
    [] () rfl rfl rfl rfl 5

/-- C10: `scan_tagged(t, p)` leaves the same queue state as `scan(p)`, whose
reply projection is exactly the third component of `scan_tagged`'s; at the
next flush the request parked by either entry point is answered with its own
pattern `p` (delivered back unchanged) and the concatenated per-section match
list, so `scan_tagged` returns `(t, p, matches)` and `scan` returns
`matches`. -/
theorem scan_scan_tagged_equiv {T : Type} (t : T) (p : Pattern)
    (q : List Pattern) (sections : List Section) :
    (scan p q).1 = (scan_tagged t p q).1
    ∧ (∀ pm, (scan p q).2 pm = ((scan_tagged t p q).2 pm).2.2)
    ∧ (flushDeliveries (scan_tagged t p q).1 sections).getLast?
        = some (PatternMatches.mk p
            ((sections.map (fun s => scanSection p s)).flatten))
    ∧ (∀ ms, (scan_tagged t p q).2 (PatternMatches.mk p ms) = (t, p, ms)) := by
  refine ⟨rfl, fun pm => rfl, ?_, fun ms => rfl⟩
  show (flushDeliveries (q ++ [p]) sections).getLast? = _
  rw [flushDeliveries_eq, List.map_append, List.map_singleton,
    List.getLast?_concat]

/-- C3 counterexample: with the sections enumerated in descending VA order
(base 16 before base 0, both containing byte `AA`), the single parked pattern
`AA` receives the match list `[16, 0]` — per-section results concatenated in
enumeration order — which is not in ascending VA order. -/
theorem flush_order_counterexample :
    flushDeliveries [Pattern.mk [(255, 170)] 0]
        [Section.mk 16 [170], Section.mk 0 [170]]
      = [PatternMatches.mk (Pattern.mk [(255, 170)] 0) [16, 0]]
    ∧ ¬ List.Sorted (· < ·) [16, 0] := by
  refine ⟨by decide, ?_⟩
  intro h
  exact absurd (List.rel_of_sorted_cons h 0 (by simp)) (by decide)

/-- C3 amended: each flush answers every parked request with its own pattern
and the concatenation, over the image's sections in enumeration order, of the
multi-pattern scanner's per-section results; and provided the sections are
enumerated in ascending VA order without overlap and the pattern is
non-empty, that delivered match list is in strictly ascending VA order. -/
theorem flush_spec (patterns : List Pattern) (sections : List Section) :
    flushDeliveries patterns sections
      = patterns.map (fun p => PatternMatches.mk p
          ((sections.map (fun s => scanSection p s)).flatten))
    ∧ (List.Chain' sectionChainRel sections →
        ∀ pm ∈ flushDeliveries patterns sections, 1 ≤ pm.pattern.len →
          List.Sorted (· < ·) pm.matchList) := by
  refine ⟨flushDeliveries_eq _ _, ?_⟩
  intro hchain pm hpm hlen
  rw [flushDeliveries_eq] at hpm
  rcases List.mem_map.mp hpm with ⟨p, hp, rfl⟩
  exact sorted_flatten_sections p hlen sections hchain

/-- C3 witness: the two-byte pattern `AA AA` over the chained sections
`(0, [AA AA AA])` and `(16, [AA AA])` is delivered the ascending overlap-
aware match list `[0, 1, 16]`. -/
theorem flush_spec_witness :
    List.Chain' sectionChainRel
        [Section.mk 0 [170, 170, 170], Section.mk 16 [170, 170]]
    ∧ List.Sorted (· < ·)
        (PatternMatches.mk (Pattern.mk [(255, 170), (255, 170)] 0)
          [0, 1, 16]).matchList :=
  ⟨List.chain'_cons.mpr ⟨by decide, List.chain'_singleton _⟩,
    (flush_spec [Pattern.mk [(255, 170), (255, 170)] 0]
        [Section.mk 0 [170, 170, 170], Section.mk 16 [170, 170]]).2
      (List.chain'_cons.mpr ⟨by decide, List.chain'_singleton _⟩)
      (PatternMatches.mk (Pattern.mk [(255, 170), (255, 170)] 0) [0, 1, 16])
      (by decide) (by decide)⟩

/-- C1: along any trace of `AsyncContext::resolve` events on one output
type's cell starting from the absent state, the resolver factory runs at most
once (there is at most one claim transition), the cache entry is written at
most once (at most one finish transition), and every resolve call after the
completion returns the cached value `v` unchanged — the same shared value or
the same cached error, since `α` ranges over the cached
`Result<Arc<dyn Any>>`. -/
theorem resolve_cache_once {α : Type} (tr : List (RLabel α))
    (sf : CellState α) (htr : RTrace CellState.absent tr sf) :
    countFactRuns tr ≤ 1
    ∧ countFinishes tr ≤ 1
    ∧ (∀ (tr₁ : List (RLabel α)) (v : α) (ws : List Nat)
        (tr₂ : List (RLabel α)),
        tr = tr₁ ++ RLabel.finish v ws :: tr₂ →
        ∀ l ∈ tr₂, l = RLabel.hit v) := by
  refine ⟨countFactRuns_le_one htr, countFinishes_le_one htr, ?_⟩
  intro tr₁ v ws tr₂ heq l hl
  subst heq
  rcases rtrace_append htr with ⟨mid, h1, h2⟩
  cases h2 with
  | cons _ s' _ _ _ hstep htr₂ =>
      cases hstep
      exact (rtrace_cached_aux htr₂ rfl).2 l hl

/-- C1 witness: the trace "claim and run the factory, a second caller
registers as waiter 1, the factory finishes with value 5 waking waiter 1, a
later caller hits the cache" satisfies all three bounds. -/
theorem resolve_cache_once_witness :
    countFactRuns
        [RLabel.factRun, RLabel.wait 1, RLabel.finish (5 : Nat) [1],
          RLabel.hit 5] ≤ 1
    ∧ countFinishes
        [RLabel.factRun, RLabel.wait 1, RLabel.finish (5 : Nat) [1],
          RLabel.hit 5] ≤ 1
    ∧ (∀ (tr₁ : List (RLabel Nat)) (v : Nat) (ws : List Nat)
        (tr₂ : List (RLabel Nat)),
        [RLabel.factRun, RLabel.wait 1, RLabel.finish (5 : Nat) [1],
          RLabel.hit 5] = tr₁ ++ RLabel.finish v ws :: tr₂ →
        ∀ l ∈ tr₂, l = RLabel.hit v) :=
  resolve_cache_once _ (CellState.cached 5)
    (RTrace.cons _ _ _ _ _ RStep.factRun
      (RTrace.cons _ _ _ _ _ (RStep.wait [] 1)
        (RTrace.cons _ _ _ _ _ (RStep.finish [1] 5)
          (RTrace.cons _ _ _ _ _ (RStep.hit 5) (RTrace.nil _)))))

end Patternsleuth
